import Mathlib

/-!
Shallow embedding of the LC-3 virtual machine implemented in `vm.py`
(repository `mini_virtual_machine`), together with proofs about its
register, memory, instruction and trap semantics.

Conventions used throughout:
* Python unbounded integers are modelled as `ℤ` where negative values can
  occur (register writes, memory writes) and as `ℕ` elsewhere.
* Python `%` with a positive modulus agrees with `Int.emod` / `Nat.mod`.
* The `memory` object (`array.array("H", ...)`) is modelled as a
  `List ℕ`; assigning a value outside `[0, 65535]` to an `array("H")`
  cell raises `OverflowError`, which is modelled by `Option`.
* The console output buffer `vsys.stdout.output_buffer` is modelled as
  the list of character codes written (Python appends `chr(c)` for each
  code `c`; the code list carries the same information).
-/

namespace LC3

/-- `UINT16_MAX = 2 ** 16` from `vm.py`. -/
def UINT16_MAX : ℕ := 65536

/-- `PC_START = 0x3000` from `vm.py`. -/
def PC_START : ℕ := 0x3000

/-- `sign_extend(x, bit_count)` from `vm.py`:
`if (x >> (bit_count - 1)) & 1: x |= 0xFFFF << bit_count; return x & 0xffff`.
The Python truthiness test on `(x >> (bit_count - 1)) & 1` is `= 1`,
since the masked value is `0` or `1`. -/
def sign_extend (x : ℕ) (bit_count : ℕ) : ℕ :=
  if (x >>> (bit_count - 1)) &&& 1 = 1 then
    (x ||| (0xFFFF <<< bit_count)) &&& 0xFFFF
  else
    x &&& 0xFFFF

/-- Modelled from the spec: the two's-complement reading of an `n`-bit
field `x` (`x < 2^n`): the value itself when the top bit is clear, and
`x - 2^n` when the top bit is set. -/
def twosComplement (n x : ℕ) : ℤ :=
  if x < 2 ^ (n - 1) then (x : ℤ) else (x : ℤ) - 2 ^ n

/-- Modelled from the spec: the two's-complement value of the `n`-bit
field `x`, widened to 16 bits and represented as an unsigned 16-bit
word (reduction of the signed value modulo `2^16`). -/
def specSignExtend (n x : ℕ) : ℕ :=
  ((twosComplement n x) % 65536).toNat

/-! ## Register file

`vm.py` keeps the ten registers in `reg`, a `register_dict` whose
`__setitem__` stores `value % UINT16_MAX`.  The register file is
modelled as a total map `ℕ → ℕ` on the indices `0..9` of class `R`;
the written value is a Python integer, hence `ℤ`, and Python `%` with
positive modulus is `Int.emod`. -/

/-- Register indices from class `R` in `vm.py`. -/
def R_R0 : ℕ := 0

def R_R7 : ℕ := 7

def R_PC : ℕ := 8

def R_COND : ℕ := 9

/-- Condition flag values from class `FL` in `vm.py`. -/
def FL_POS : ℕ := 1

def FL_ZRO : ℕ := 2

def FL_NEG : ℕ := 4

/-- `register_dict.__setitem__(key, value)`:
`super().__setitem__(key, value % UINT16_MAX)`. -/
def regSet (reg : ℕ → ℕ) (key : ℕ) (value : ℤ) : ℕ → ℕ :=
  fun i => if i = key then (value % 65536).toNat else reg i

/-- `reg = register_dict({i: 0 for i in range(R.COUNT)})`: all ten
registers initially zero. -/
def regInit : ℕ → ℕ := fun _ => 0

/-- `update_flags(r)` from `vm.py`: `ZRO` when the register holds 0,
`NEG` when `reg[r] >> 15` is nonzero, `POS` otherwise.  (`not
reg.get(r)` is true exactly on the falsy value 0 for the word-valued
registers.) -/
def update_flags (reg : ℕ → ℕ) (r : ℕ) : ℕ → ℕ :=
  if reg r = 0 then regSet reg R_COND FL_ZRO
  else if reg r >>> 15 ≠ 0 then regSet reg R_COND FL_NEG
  else regSet reg R_COND FL_POS

/-! ## Memory

`memory` is `array.array("H", ...)`, a sequence of unsigned 16-bit
cells, modelled as a `List ℕ`.  Reading uses `.getD _ 0` (all VM reads
are in bounds of the 65536-cell array).  Assigning an `array("H")` cell
a value outside `[0, 65535]` raises `OverflowError`; `mem_write`
therefore returns `none` for such values — it does NOT reduce the
value. -/

/-- Memory-mapped register addresses from class `Mr` in `vm.py`. -/
def Mr_KBSR : ℕ := 0xFE00

def Mr_KBDR : ℕ := 0xFE02

/-- `memory[a]` (in-bounds array access). -/
def memGet (m : List ℕ) (a : ℕ) : ℕ := m.getD a 0

/-- `mem_write(address, val)` from `vm.py`:
`address = address % UINT16_MAX; memory[address] = val`.
The address is reduced; the value is stored as given, and the
`array("H")` cell assignment raises `OverflowError` (here `none`)
unless `0 ≤ val < 65536`. -/
def mem_write (address : ℤ) (val : ℤ) (m : List ℕ) : Option (List ℕ) :=
  match val with
  | .ofNat n => if n < 65536 then some (m.set (address % 65536).toNat n)
                else none
  | .negSucc _ => none

/-- `check_key()` polls `select.select` with timeout 0 (non-blocking)
and `getch.getch()` then reads the pending character; with a scripted
input stream a character is pending exactly when the stream is
nonempty.  `mem_read(address)` from `vm.py`: reduce the address mod
`UINT16_MAX`; at `KBSR` poll the keyboard, setting `memory[KBSR] =
1 << 15` and `memory[KBDR] = ord(getch.getch())` when input is
pending and `memory[KBSR] = 0` otherwise; finally return
`memory[address]`.  Result: (value read, memory after, input after). -/
def mem_read (address : ℕ) (input : List ℕ) (m : List ℕ) :
    ℕ × List ℕ × List ℕ :=
  if address % 65536 == Mr_KBSR then
    match input with
    | c :: rest =>
        (memGet ((m.set Mr_KBSR (1 <<< 15)).set Mr_KBDR c) (address % 65536),
          (m.set Mr_KBSR (1 <<< 15)).set Mr_KBDR c, rest)
    | [] =>
        (memGet (m.set Mr_KBSR 0) (address % 65536), m.set Mr_KBSR 0, [])
  else (memGet m (address % 65536), m, input)

/-! ## Image loader

`read_image_file` in `vm.py` reads 2 origin bytes (`int.from_bytes(...,
'big')`), builds `memory = array("H", [0] * origin)`, appends
`f.read(UINT16_MAX - origin)` bytes via `frombytes` (native 16-bit
words; `byteswap()` then yields big-endian values), and pads with
zeros to `UINT16_MAX` cells.  `array.frombytes` raises `ValueError`
when the byte count is not a multiple of the 2-byte item size, which
is modelled as `none`. -/

/-- `int.from_bytes(bs, byteorder='big')`. -/
def fromBytesBE (bs : List ℕ) : ℕ := bs.foldl (fun acc b => 256 * acc + b) 0

/-- Byte pairs interpreted as big-endian 16-bit words (`frombytes`
into `array("H")` followed by `byteswap()`). -/
def bytesToWordsBE : List ℕ → List ℕ
  | b1 :: b2 :: rest => (256 * b1 + b2) :: bytesToWordsBE rest
  | _ => []

/-- `origin = int.from_bytes(f.read(2), byteorder='big')`. -/
def imageOrigin (bytes : List ℕ) : ℕ := fromBytesBE (bytes.take 2)

/-- `f.read(max_read)` with `max_read = UINT16_MAX - origin`: the
payload bytes actually consumed from the stream. -/
def imageData (bytes : List ℕ) : List ℕ :=
  (bytes.drop 2).take (65536 - imageOrigin bytes)

/-- `array("H", [0] * origin)` followed by `frombytes`/`byteswap`. -/
def loadedCells (bytes : List ℕ) : List ℕ :=
  List.replicate (imageOrigin bytes) 0 ++ bytesToWordsBE (imageData bytes)

/-- `read_image_file` from `vm.py` on a byte stream: origin from the
first two bytes, payload words loaded at `origin`, zero padding to
65536 cells; `none` models the `ValueError` that `frombytes` raises
when the payload byte count is odd. -/
def read_image_file (bytes : List ℕ) : Option (List ℕ) :=
  if (imageData bytes).length % 2 = 0 then
    some (loadedCells bytes
      ++ List.replicate (65536 - (loadedCells bytes).length) 0)
  else none

/-! ## TRAP PUTS -/

/-- The loop of `trap_puts` in `vm.py`:
`for i in range(reg[R.R0], len(memory)): c = memory[i];
if c == 0: break; vsys.stdout.write(chr(c))` — the character codes
written, starting from cell `i`. -/
def trap_puts_loop (mem : List ℕ) (i : ℕ) : List ℕ :=
  if h : i < mem.length then
    if memGet mem i = 0 then []
    else memGet mem i :: trap_puts_loop mem (i + 1)
  else []
termination_by mem.length - i

/-! ## Execution engine

The module-level mutable state of `vm.py` (`reg`, `memory`,
`is_running`, the input device, and the `vsys` buffers) is threaded
explicitly.  A Python exception escaping a handler (bad opcode,
unregistered trap vector, `OverflowError`, I/O failure) kills the
`main_generator` generator; handlers that can raise return
`Option VMState` with `none` for the exception. -/

structure VMState where
  regs : ℕ → ℕ
  mem : List ℕ
  input : List ℕ
  outBuf : List ℕ
  cmdBuf : String
  running : Bool

/-- `reg[r] = v` through `register_dict.__setitem__`. -/
def wrReg (s : VMState) (r : ℕ) (v : ℤ) : VMState :=
  {s with regs := regSet s.regs r v}

/-- `update_flags(r)` acting on the whole machine state. -/
def updFlags (s : VMState) (r : ℕ) : VMState :=
  {s with regs := update_flags s.regs r}

/-- The Python output buffer string corresponding to a list of written
character codes (`vsys.stdout.write(chr(c))` appends `chr(c)`). -/
def bufStr (l : List ℕ) : String := String.mk (l.map Char.ofNat)

/-- `add(instr)` from `vm.py`. -/
def op_add (s : VMState) (i : ℕ) : VMState :=
  if (i >>> 5) &&& 0x1 ≠ 0 then
    updFlags (wrReg s ((i >>> 9) &&& 0x7)
      ((s.regs ((i >>> 6) &&& 0x7) : ℤ) + sign_extend (i &&& 0x1F) 5))
      ((i >>> 9) &&& 0x7)
  else
    updFlags (wrReg s ((i >>> 9) &&& 0x7)
      ((s.regs ((i >>> 6) &&& 0x7) : ℤ) + s.regs (i &&& 0x7)))
      ((i >>> 9) &&& 0x7)

/-- `and_(instr)` from `vm.py`. -/
def op_and_ (s : VMState) (i : ℕ) : VMState :=
  if (i >>> 5) &&& 0x1 ≠ 0 then
    updFlags (wrReg s ((i >>> 9) &&& 0x7)
      ((s.regs ((i >>> 6) &&& 0x7) &&& sign_extend (i &&& 0x1F) 5 : ℕ) : ℤ))
      ((i >>> 9) &&& 0x7)
  else
    updFlags (wrReg s ((i >>> 9) &&& 0x7)
      ((s.regs ((i >>> 6) &&& 0x7) &&& s.regs (i &&& 0x7) : ℕ) : ℤ))
      ((i >>> 9) &&& 0x7)

/-- `not_(instr)` from `vm.py`; Python `~x` on an integer is `-x - 1`,
reduced by the register-write path. -/
def op_not_ (s : VMState) (i : ℕ) : VMState :=
  updFlags (wrReg s ((i >>> 9) &&& 0x7)
    (-(s.regs ((i >>> 6) &&& 0x7) : ℤ) - 1)) ((i >>> 9) &&& 0x7)

/-- `br(instr)` from `vm.py`. -/
def op_br (s : VMState) (i : ℕ) : VMState :=
  if ((i >>> 9) &&& 0x7) &&& s.regs R_COND ≠ 0 then
    wrReg s R_PC ((s.regs R_PC : ℤ) + sign_extend (i &&& 0x1ff) 9)
  else s

/-- `jmp(instr)` from `vm.py` (also bound to opcode 12 as RET). -/
def op_jmp (s : VMState) (i : ℕ) : VMState :=
  {wrReg s R_PC ((s.regs ((i >>> 6) &&& 0x7) : ℤ)) with
    cmdBuf := "JMP " ++ toString ((i >>> 6) &&& 0x7) ++ " ; Move the PC"}

/-- `jsr(instr)` from `vm.py`.  `reg[R.R7] = reg[R.PC]` executes
**before** the branch, so both `reg[R.PC]` (long form) and `reg[r1]`
(JSRR form) are read from the register file **after** the `R7` write;
in particular JSRR with `BaseR = R7` sets `PC` to the old `PC`. -/
def op_jsr (s : VMState) (i : ℕ) : VMState :=
  if (i >>> 11) &&& 1 ≠ 0 then
    wrReg (wrReg s R_R7 ((s.regs R_PC : ℤ))) R_PC
      (((wrReg s R_R7 ((s.regs R_PC : ℤ))).regs R_PC : ℤ)
        + sign_extend (i &&& 0x7ff) 11)
  else
    wrReg (wrReg s R_R7 ((s.regs R_PC : ℤ))) R_PC
      (((wrReg s R_R7 ((s.regs R_PC : ℤ))).regs ((i >>> 6) &&& 0x7) : ℤ))

/-- `ld(instr)` from `vm.py`. -/
def op_ld (s : VMState) (i : ℕ) : VMState :=
  match mem_read (s.regs R_PC + sign_extend (i &&& 0x1ff) 9) s.input s.mem with
  | (v, m1, in1) =>
      updFlags (wrReg {s with mem := m1, input := in1}
        ((i >>> 9) &&& 0x7) (v : ℤ)) ((i >>> 9) &&& 0x7)

/-- `ldi(instr)` from `vm.py`: two chained memory reads. -/
def op_ldi (s : VMState) (i : ℕ) : VMState :=
  match mem_read (s.regs R_PC + sign_extend (i &&& 0x1ff) 9) s.input s.mem with
  | (v1, m1, in1) =>
      match mem_read v1 in1 m1 with
      | (v2, m2, in2) =>
          updFlags (wrReg {s with mem := m2, input := in2}
            ((i >>> 9) &&& 0x7) (v2 : ℤ)) ((i >>> 9) &&& 0x7)

/-- `ldr(instr)` from `vm.py`. -/
def op_ldr (s : VMState) (i : ℕ) : VMState :=
  match mem_read (s.regs ((i >>> 6) &&& 0x7) + sign_extend (i &&& 0x3F) 6)
      s.input s.mem with
  | (v, m1, in1) =>
      updFlags (wrReg {s with mem := m1, input := in1}
        ((i >>> 9) &&& 0x7) (v : ℤ)) ((i >>> 9) &&& 0x7)

/-- `lea(instr)` from `vm.py`; the command buffer records the value
just written (read back from the register after the reduced write). -/
def op_lea (s : VMState) (i : ℕ) : VMState :=
  match updFlags (wrReg s ((i >>> 9) &&& 0x7)
      ((s.regs R_PC : ℤ) + sign_extend (i &&& 0x1ff) 9)) ((i >>> 9) &&& 0x7) with
  | s1 =>
      {s1 with cmdBuf := "LEA " ++ toString ((i >>> 9) &&& 0x7) ++ " "
        ++ toString (s1.regs ((i >>> 9) &&& 0x7))
        ++ " ; Load Effective Address"}

/-- `st(instr)` from `vm.py`; the `array("H")` write can raise. -/
def op_st (s : VMState) (i : ℕ) : Option VMState :=
  match mem_write ((s.regs R_PC + sign_extend (i &&& 0x1ff) 9 : ℕ) : ℤ)
      ((s.regs ((i >>> 9) &&& 0x7) : ℤ)) s.mem with
  | some m1 => some {s with mem := m1}
  | none => none

/-- `sti(instr)` from `vm.py`. -/
def op_sti (s : VMState) (i : ℕ) : Option VMState :=
  match mem_read (s.regs R_PC + sign_extend (i &&& 0x1ff) 9) s.input s.mem with
  | (v, m1, in1) =>
      match mem_write (v : ℤ) ((s.regs ((i >>> 9) &&& 0x7) : ℤ)) m1 with
      | some m2 => some {s with mem := m2, input := in1}
      | none => none

/-- `str_(instr)` from `vm.py`. -/
def op_str_ (s : VMState) (i : ℕ) : Option VMState :=
  match mem_write
      ((s.regs ((i >>> 6) &&& 0x7) + sign_extend (i &&& 0x3F) 6 : ℕ) : ℤ)
      ((s.regs ((i >>> 9) &&& 0x7) : ℤ)) s.mem with
  | some m1 => some {s with mem := m1}
  | none => none

/-- `trap_getc()` from `vm.py`: block on `getch.getch()` for one
character and store its code in `R0` (no echo).  An exhausted scripted
input stream is an I/O fault (`ord` of an empty read raises). -/
def trap_getc (s : VMState) : Option VMState :=
  match s.input with
  | c :: rest => some (wrReg {s with input := rest} R_R0 (c : ℤ))
  | [] => none

/-- `trap_out()` from `vm.py`: write `chr(reg[R0])`, flush, and record
the command text with the accumulated output buffer. -/
def trap_out (s : VMState) : VMState :=
  {s with
    outBuf := s.outBuf ++ [s.regs R_R0]
    cmdBuf := "OUT (" ++ bufStr (s.outBuf ++ [s.regs R_R0])
      ++ ") ; output a character"}

/-- `vsys.stdout.read(n)` from `vm.py`: it calls `sys.stdout.read(n)`
— a read on the write-only console output stream, which raises
`io.UnsupportedOperation` — and in any case falls off the end of the
function, so it can never produce a character. -/
def vsys_stdout_read (_n : ℕ) : Option ℕ := none

/-- The character codes of the `trap_in` prompt string. -/
def promptCodes : List ℕ := "Enter a character: ".toList.map Char.toNat

/-- `trap_in()` from `vm.py`: prompt, flush, then
`reg[R.R0] = vsys.stdout.read(1)`.  Since `vsys.stdout.read` yields no
value (see `vsys_stdout_read`), the `R0` assignment raises and the
step faults. -/
def trap_in (s : VMState) : Option VMState :=
  match vsys_stdout_read 1 with
  | some c => some (wrReg
      {s with outBuf := s.outBuf ++ promptCodes, cmdBuf := "IN"}
      R_R0 (c : ℤ))
  | none => none

/-- `trap_puts()` from `vm.py`: write the cells from `reg[R0]` to the
first zero cell, record the command text, flush. -/
def trap_puts (s : VMState) : VMState :=
  {s with
    outBuf := s.outBuf ++ trap_puts_loop s.mem (s.regs R_R0)
    cmdBuf := "PUTS ; output a byte string ("
      ++ bufStr (s.outBuf ++ trap_puts_loop s.mem (s.regs R_R0)) ++ ")"}

/-- The loop of `trap_putsp()` from `vm.py`: per cell, the low byte,
then the high byte when nonzero; stop at a zero cell or the end of
memory. -/
def trap_putsp_loop (mem : List ℕ) (i : ℕ) : List ℕ :=
  if h : i < mem.length then
    if memGet mem i = 0 then []
    else if memGet mem i >>> 8 ≠ 0 then
      (memGet mem i &&& 0xFF) :: (memGet mem i >>> 8)
        :: trap_putsp_loop mem (i + 1)
    else (memGet mem i &&& 0xFF) :: trap_putsp_loop mem (i + 1)
  else []
termination_by mem.length - i

/-- `trap_putsp()` from `vm.py` (its command text also says `PUTS`). -/
def trap_putsp (s : VMState) : VMState :=
  {s with
    outBuf := s.outBuf ++ trap_putsp_loop s.mem (s.regs R_R0)
    cmdBuf := "PUTS ; ("
      ++ bufStr (s.outBuf ++ trap_putsp_loop s.mem (s.regs R_R0)) ++ ")"}

/-- `trap_halt()` from `vm.py`: `print('HALT')` goes to the real
stdout (not the `vsys` buffer), the command text is recorded, and
`is_running` is cleared. -/
def trap_halt (s : VMState) : VMState :=
  {s with running := false, cmdBuf := "HALT ; end the program"}

/-- `trap(instr)` from `vm.py`: `traps.get(instr & 0xFF)()`.  A vector
outside the `traps` dictionary makes `traps.get` return `None` and the
call raise `TypeError` (`none`). -/
def trap (s : VMState) (i : ℕ) : Option VMState :=
  if i &&& 0xFF = 0x20 then trap_getc s
  else if i &&& 0xFF = 0x21 then some (trap_out s)
  else if i &&& 0xFF = 0x22 then some (trap_puts s)
  else if i &&& 0xFF = 0x23 then trap_in s
  else if i &&& 0xFF = 0x24 then some (trap_putsp s)
  else if i &&& 0xFF = 0x25 then some (trap_halt s)
  else none

/-- `ops.get(op, bad_opcode)` and the handler call: the `ops`
dictionary of `vm.py` has entries for opcodes
0,1,2,3,4,5,6,7,9,10,11,12,14,15 (12 is shared by `OP.JMP` and
`OP.RET`); opcodes 8 (`RTI`, unused) and 13 (`RES`, reserved) hit
`bad_opcode`, which raises (`none`). -/
def execInstr (i : ℕ) (s : VMState) : Option VMState :=
  if i >>> 12 = 0 then some (op_br s i)
  else if i >>> 12 = 1 then some (op_add s i)
  else if i >>> 12 = 2 then some (op_ld s i)
  else if i >>> 12 = 3 then op_st s i
  else if i >>> 12 = 4 then some (op_jsr s i)
  else if i >>> 12 = 5 then some (op_and_ s i)
  else if i >>> 12 = 6 then some (op_ldr s i)
  else if i >>> 12 = 7 then op_str_ s i
  else if i >>> 12 = 9 then some (op_not_ s i)
  else if i >>> 12 = 10 then some (op_ldi s i)
  else if i >>> 12 = 11 then op_sti s i
  else if i >>> 12 = 12 then some (op_jmp s i)
  else if i >>> 12 = 14 then some (op_lea s i)
  else if i >>> 12 = 15 then trap s i
  else none

/-- `fun.__name__` for the dispatched handler (the decorator uses
`functools.wraps`, so the wrapped names survive; every trap vector
dispatches through the single `trap` function). -/
def dispatchName (op : ℕ) : String :=
  if op = 0 then "br" else if op = 1 then "add" else if op = 2 then "ld"
  else if op = 3 then "st" else if op = 4 then "jsr"
  else if op = 5 then "and_" else if op = 6 then "ldr"
  else if op = 7 then "str_" else if op = 9 then "not_"
  else if op = 10 then "ldi" else if op = 11 then "sti"
  else if op = 12 then "jmp" else if op = 14 then "lea"
  else if op = 15 then "trap" else "bad_opcode"

/-- One dictionary yielded by `main_generator` in `vm.py` (keys `PC`,
`command`, `op_name`, `op_code`, `output_buffer`, `memory`).  The
synthetic initial event carries no `op_code` and no `output_buffer`
key (`none` here).  The Python dict holds a **reference** to the live
`memory` array; the model stores the snapshot current at yield
time. -/
structure StepEvent where
  PC : ℕ
  command : String
  op_name : String
  op_code : Option ℕ
  output_buffer : Option (List ℕ)
  memory : List ℕ

/-- §4.6 engine states: `Running`, and the two terminal states.
`Halted` is `is_running == 0`; `Faulted` is an exception escaping the
generator. -/
inductive EngineStatus
  | running
  | halted
  | faulted
deriving DecidableEq

structure Engine where
  st : VMState
  status : EngineStatus

/-- One iteration of the `while is_running:` loop of
`main_generator`: fetch (`mem_read(reg[R.PC])`), increment PC, decode
`instr >> 12`, dispatch, then yield the step event and clear the
`vsys` buffers.  A handler exception yields no event and leaves the
generator dead (`Faulted`); a terminal engine performs no work. -/
def engineStep (e : Engine) : Engine × Option StepEvent :=
  match e.status with
  | .running =>
      match mem_read (e.st.regs R_PC) e.st.input e.st.mem with
      | (instr, m1, in1) =>
          match execInstr instr
              (wrReg {e.st with mem := m1, input := in1} R_PC
                ((e.st.regs R_PC : ℤ) + 1)) with
          | none =>
              (⟨wrReg {e.st with mem := m1, input := in1} R_PC
                  ((e.st.regs R_PC : ℤ) + 1), .faulted⟩, none)
          | some s2 =>
              (⟨{s2 with outBuf := [], cmdBuf := ""},
                  if s2.running then .running else .halted⟩,
                some {PC := s2.regs R_PC
                      command := s2.cmdBuf
                      op_name := dispatchName (instr >>> 12)
                      op_code := some (instr >>> 12)
                      output_buffer := some s2.outBuf
                      memory := s2.mem})
  | _ => (e, none)

/-- The events produced by up to `fuel` further loop iterations. -/
def runLoop : ℕ → Engine → List StepEvent
  | 0, _ => []
  | fuel + 1, e =>
      match engineStep e with
      | (_, none) => []
      | (e', some ev) => ev :: runLoop fuel e'

/-- `main_generator(args)` from `vm.py` on a scripted input stream:
set `is_running = 1`, load the image (re-creating `memory`), set
`reg[R.PC] = PC_START` — the other registers of the module-level
`reg` are NOT reset — yield the synthetic `.ORIG` event, then run the
loop.  `none` models a failing image load. -/
def main_generator_run (regs0 : ℕ → ℕ) (cmd0 : String) (out0 : List ℕ)
    (image : List ℕ) (input : List ℕ) (fuel : ℕ) :
    Option (List StepEvent) :=
  match read_image_file image with
  | none => none
  | some mem0 =>
      some
        ({PC := (regSet regs0 R_PC (PC_START : ℤ)) R_PC
          command := ".ORIG x3000"
          op_name := ".ORIG"
          op_code := none
          output_buffer := none
          memory := mem0} ::
        runLoop fuel ⟨
          {regs := regSet regs0 R_PC (PC_START : ℤ)
           mem := mem0
           input := input
           outBuf := out0
           cmdBuf := cmd0
           running := true}, .running⟩)

/-! ## Register-width invariant (C1) -/

/-- All registers hold 16-bit words. -/
def RegInv (reg : ℕ → ℕ) : Prop := ∀ i, reg i < 65536

/-! ## Determinism and reset (C9) -/

/-- A two-instruction image at origin `0x3000`: `TRAP OUT` then
`TRAP HALT` (bytes `30 00 F0 21 F0 25`). -/
def demoImage : List ℕ := [48, 0, 240, 33, 240, 37]

/-- The 65536-cell memory that loading `demoImage` produces. -/
def demoMemory : List ℕ :=
  loadedCells demoImage
    ++ List.replicate (65536 - (loadedCells demoImage).length) 0

def defaultEvent : StepEvent :=
  {PC := 0, command := "", op_name := "", op_code := none,
   output_buffer := none, memory := []}

/-- The `output_buffer` field of the second event of a run (the event
of the first executed instruction). -/
def secondOutput (r : Option (List StepEvent)) : Option (Option (List ℕ)) :=
  r.map (fun evs => (evs.getD 1 defaultEvent).output_buffer)

/-- C2: for every bit width `n` in 1..16 and every `n`-bit field value
`x` (the lower `n` bits of an arbitrary 16-bit word), `sign_extend x n`
equals the two's-complement value of `x` interpreted as an `n`-bit
signed quantity, widened to 16 bits and represented as an unsigned
16-bit word. -/
theorem c2_sign_extend_correct (n x : ℕ) (h1 : 1 ≤ n) (h2 : n ≤ 16)
    (hx : x < 2 ^ n) : sign_extend x n = specSignExtend n x := by
  have land65535 : ∀ y : ℕ, y &&& 65535 = y % 65536 := by
    intro y
    have h := Nat.and_pow_two_sub_one_eq_mod y 16
    norm_num at h
    exact h
  have hle : (2 : ℕ) ^ n ≤ 65536 := by
    calc (2:ℕ) ^ n ≤ 2 ^ 16 := Nat.pow_le_pow_right (by norm_num) h2
    _ = 65536 := by norm_num
  unfold sign_extend specSignExtend twosComplement
  rw [Nat.shiftRight_eq_div_pow]
  by_cases hlow : x < 2 ^ (n - 1)
  · -- top bit of the field clear: the guard fails and the result is `x`.
    have hdiv : x / 2 ^ (n - 1) = 0 := Nat.div_eq_of_lt hlow
    rw [hdiv, if_neg (by decide : ¬ ((0:ℕ) &&& 1 = 1)), if_pos hlow,
      land65535]
    have hx16 : x < 65536 := Nat.lt_of_lt_of_le hx hle
    omega
  · -- top bit of the field set: the guard holds and high bits are filled.
    push_neg at hlow
    have h2n : (2 : ℕ) ^ n = 2 ^ (n - 1) * 2 := by
      rw [← pow_succ]
      congr 1
      omega
    have hdiv : x / 2 ^ (n - 1) = 1 :=
      Nat.div_eq_of_lt_le (by omega) (by omega)
    rw [hdiv, if_pos (by decide : (1:ℕ) &&& 1 = 1),
      if_neg (by omega : ¬ x < 2 ^ (n - 1))]
    rw [Nat.shiftLeft_eq, Nat.lor_comm, Nat.mul_comm 65535 (2 ^ n),
      ← Nat.mul_add_lt_is_or hx 65535, land65535]
    have hcast : ((2 : ℕ) ^ n : ℤ) = (2 : ℤ) ^ n := by push_cast; ring
    rw [← hcast]
    generalize hgen : (2 : ℕ) ^ n = p at hx hle ⊢
    omega

/-- C2 witness: the spec's table-driven example, `n = 5`,
`x = 0b10001 = 17`, extends to `0xFFF1 = 65521`. -/
theorem c2_sign_extend_witness :
    sign_extend 17 5 = specSignExtend 5 17 ∧ specSignExtend 5 17 = 65521 :=
  ⟨c2_sign_extend_correct 5 17 (by decide) (by decide) (by decide), by decide⟩

/-- Reduction of an integer modulo `2^16` lands in `[0, 65535]`. -/
theorem emod65536_toNat_lt (v : ℤ) : (v % 65536).toNat < 65536 := by
  have h1 : 0 ≤ v % 65536 := Int.emod_nonneg v (by norm_num)
  have h2 : v % 65536 < 65536 := Int.emod_lt_of_pos v (by norm_num)
  omega

/-- A register write keeps every register below `2^16`. -/
theorem regSet_lt (reg : ℕ → ℕ) (key : ℕ) (value : ℤ)
    (h : ∀ i, reg i < 65536) : ∀ i, regSet reg key value i < 65536 := by
  intro i
  unfold regSet
  by_cases hik : i = key
  · rw [if_pos hik]
    exact emod65536_toNat_lt value
  · rw [if_neg hik]
    exact h i

/-- C4: `update_flags(r)` sets `COND` to `ZRO` when the register holds
0, to `NEG` when bit 15 of its word value is set, and to `POS`
otherwise. -/
theorem c4_update_flags_correct (reg : ℕ → ℕ) (r : ℕ)
    (h : reg r < 65536) :
    (reg r = 0 → update_flags reg r R_COND = FL_ZRO)
    ∧ (Nat.testBit (reg r) 15 = true → update_flags reg r R_COND = FL_NEG)
    ∧ (reg r ≠ 0 → Nat.testBit (reg r) 15 = false →
        update_flags reg r R_COND = FL_POS) := by
  have h15 : (2 : ℕ) ^ 15 = 32768 := by norm_num
  refine ⟨?_, ?_, ?_⟩
  · intro h0
    unfold update_flags
    rw [if_pos h0]
    simp [regSet, R_COND, FL_ZRO]
  · intro hbit
    rw [Nat.testBit_to_div_mod] at hbit
    simp only [decide_eq_true_eq] at hbit
    rw [h15] at hbit
    have hne : reg r ≠ 0 := by omega
    have hdiv : reg r >>> 15 ≠ 0 := by
      rw [Nat.shiftRight_eq_div_pow, h15]
      omega
    unfold update_flags
    rw [if_neg hne, if_pos hdiv]
    simp [regSet, R_COND, FL_NEG]
  · intro hne hbit
    rw [Nat.testBit_to_div_mod] at hbit
    simp only [decide_eq_false_iff_not] at hbit
    rw [h15] at hbit
    have hdiv : ¬ reg r >>> 15 ≠ 0 := by
      rw [Nat.shiftRight_eq_div_pow, h15]
      omega
    unfold update_flags
    rw [if_neg hne, if_neg hdiv]
    simp [regSet, R_COND, FL_POS]

/-- C4 witness: value 0 yields `ZRO`, `0x8000` yields `NEG`, 1 yields
`POS` (each via the theorem applied to a register file holding that
word in `R0`). -/
theorem c4_update_flags_witness :
    update_flags (fun _ => 0) 0 R_COND = FL_ZRO
    ∧ update_flags (fun _ => 0x8000) 0 R_COND = FL_NEG
    ∧ update_flags (fun _ => 1) 0 R_COND = FL_POS :=
  ⟨(c4_update_flags_correct (fun _ => 0) 0 (by decide)).1 rfl,
   (c4_update_flags_correct (fun _ => 0x8000) 0 (by decide)).2.1 (by decide),
   (c4_update_flags_correct (fun _ => 1) 0 (by decide)).2.2
     (by decide) (by decide)⟩

/-- In-bounds array write followed by a read at the same address. -/
theorem memGet_set_self (m : List ℕ) (i v : ℕ) (h : i < m.length) :
    memGet (m.set i v) i = v := by
  unfold memGet
  rw [List.getD_eq_getElem?_getD, List.getElem?_set_self (by simpa using h)]
  rfl

/-- Array write followed by a read at a different address. -/
theorem memGet_set_ne (m : List ℕ) (i j v : ℕ) (h : i ≠ j) :
    memGet (m.set i v) j = memGet m j := by
  unfold memGet
  rw [List.getD_eq_getElem?_getD, List.getElem?_set_ne h,
    ← List.getD_eq_getElem?_getD]

/-- C3 counterexample: the claim says `mem_write` reduces the value
modulo 65536 and never fails, so `mem_write 0 65536` on a memory would
store 0; in the code the `array("H")` assignment raises
`OverflowError` (modelled: `none`) because the value is not reduced. -/
theorem c3_mem_write_counterexample : mem_write 0 65536 [0] = none := by
  decide

/-- C3 amended: `mem_write` reduces the **address** modulo 65536 (no
address ever fails) and stores the **value unreduced**: for values in
`[0, 65535]` it stores the value at the reduced address and leaves
every other cell unchanged, while any value outside `[0, 65535]`
raises `OverflowError` (modelled as `none`) instead of being
reduced. -/
theorem c3_mem_write_amended (a v : ℤ) (m : List ℕ) :
    (0 ≤ v → v < 65536 →
      mem_write a v m = some (m.set (a % 65536).toNat v.toNat)
      ∧ ((a % 65536).toNat < m.length →
          memGet (m.set (a % 65536).toNat v.toNat) (a % 65536).toNat
            = v.toNat)
      ∧ (∀ b, b ≠ (a % 65536).toNat →
          memGet (m.set (a % 65536).toNat v.toNat) b = memGet m b))
    ∧ ((v < 0 ∨ 65536 ≤ v) → mem_write a v m = none) := by
  constructor
  · intro h0 h1
    refine ⟨?_, ?_, ?_⟩
    · unfold mem_write
      cases v with
      | ofNat n =>
          show (if n < 65536 then some (m.set ((a % 65536).toNat) n)
              else none)
            = some (m.set (a % 65536).toNat (Int.ofNat n).toNat)
          rw [if_pos (by
            rw [Int.ofNat_eq_coe] at h1
            exact_mod_cast h1)]
          rfl
      | negSucc n =>
          exact absurd h0 (by
            have := Int.negSucc_lt_zero n
            omega)
    · intro hlt
      exact memGet_set_self m _ _ hlt
    · intro b hb
      exact memGet_set_ne m _ _ _ (Ne.symm hb)
  · intro hout
    unfold mem_write
    cases v with
    | ofNat n =>
        show (if n < 65536 then some (m.set ((a % 65536).toNat) n)
            else none) = none
        rw [if_neg (by
          simp only [Int.ofNat_eq_coe] at hout
          omega)]
    | negSucc n => rfl

/-- C3 witness: writing value 7 at address `65536 + 3` stores 7 at
cell 3; writing value `-1` anywhere fails with `OverflowError`. -/
theorem c3_mem_write_witness :
    mem_write 65539 7 [9, 9, 9, 9] = some [9, 9, 9, 7]
    ∧ mem_write 0 (-1) [0] = none := by
  constructor
  · have h := (c3_mem_write_amended 65539 7 [9, 9, 9, 9]).1
      (by decide) (by decide)
    rw [h.1]
    decide
  · exact (c3_mem_write_amended 0 (-1) [0]).2 (by decide)

/-- C5: reading `0xFE00` with no pending input stores 0 in the status
cell and returns 0; with a pending character `c` it sets the status
cell's high bit (the cell becomes `0x8000`), stores `c` at `0xFE02`,
and returns the status cell's value `0x8000`; reading any other
address returns the stored cell with memory and input unchanged. -/
theorem c5_mem_read_correct (m : List ℕ) (hlen : m.length = 65536) :
    (mem_read 0xFE00 [] m = (0, m.set Mr_KBSR 0, []))
    ∧ (∀ c rest,
        mem_read 0xFE00 (c :: rest) m =
          (0x8000, (m.set Mr_KBSR (1 <<< 15)).set Mr_KBDR c, rest)
        ∧ Nat.testBit
            (memGet ((m.set Mr_KBSR (1 <<< 15)).set Mr_KBDR c) Mr_KBSR)
            15 = true
        ∧ memGet ((m.set Mr_KBSR (1 <<< 15)).set Mr_KBDR c) Mr_KBDR = c)
    ∧ (∀ a input, a % 65536 ≠ 0xFE00 →
        mem_read a input m = (memGet m (a % 65536), m, input)) := by
  have hKBSR : Mr_KBSR < m.length := by rw [hlen]; decide
  have hKBDR : Mr_KBDR < m.length := by rw [hlen]; decide
  have hguard : ((0xFE00 : ℕ) % 65536 == Mr_KBSR) = true := rfl
  have hmod : (0xFE00 : ℕ) % 65536 = Mr_KBSR := by decide
  refine ⟨?_, ?_, ?_⟩
  · unfold mem_read
    rw [if_pos hguard, hmod, memGet_set_self m Mr_KBSR 0 hKBSR]
  · intro c rest
    have hget : memGet ((m.set Mr_KBSR (1 <<< 15)).set Mr_KBDR c) Mr_KBSR
        = 0x8000 := by
      rw [memGet_set_ne _ _ _ _ (by decide : Mr_KBDR ≠ Mr_KBSR),
        memGet_set_self m Mr_KBSR (1 <<< 15) hKBSR]
      decide
    refine ⟨?_, ?_, ?_⟩
    · unfold mem_read
      rw [if_pos hguard, hmod]
      show (memGet ((m.set Mr_KBSR (1 <<< 15)).set Mr_KBDR c) Mr_KBSR,
        (m.set Mr_KBSR (1 <<< 15)).set Mr_KBDR c, rest) = _
      rw [hget]
    · rw [hget]
      decide
    · exact memGet_set_self _ Mr_KBDR c
        (by simp only [List.length_set]; exact hKBDR)
  · intro a input ha
    unfold mem_read
    rw [if_neg (show ¬ ((a % 65536 == Mr_KBSR) = true) from by
      simp only [beq_iff_eq, Mr_KBSR]
      exact ha)]

/-- C5 witness: with the all-zero 65536-cell memory, a read of
`0xFE00` on empty input returns 0, a pending character 65 is placed at
`0xFE02` with the status high bit set, and a read of address 0 leaves
everything unchanged. -/
theorem c5_mem_read_witness :
    (mem_read 0xFE00 [] (List.replicate 65536 0)).1 = 0
    ∧ memGet
        (((List.replicate 65536 0).set Mr_KBSR (1 <<< 15)).set Mr_KBDR 65)
        Mr_KBDR = 65
    ∧ mem_read 0 [65] (List.replicate 65536 0)
        = (0, List.replicate 65536 0, [65]) := by
  have h := c5_mem_read_correct (List.replicate 65536 0)
    (List.length_replicate 65536 0)
  refine ⟨?_, ?_, ?_⟩
  · rw [h.1]
  · exact (h.2.1 65 []).2.2
  · have h2 := h.2.2 0 [65] (by decide)
    rw [h2]
    have h0 : memGet (List.replicate 65536 0) 0 = 0 := by
      unfold memGet
      rw [List.getD_eq_getElem?_getD, List.getElem?_replicate]
      norm_num
    simp only [Nat.zero_mod, h0]

theorem bytesToWordsBE_length :
    ∀ l : List ℕ, (bytesToWordsBE l).length = l.length / 2
  | [] => by simp [bytesToWordsBE]
  | [_] => by simp [bytesToWordsBE]
  | _ :: _ :: rest => by
      simp only [bytesToWordsBE, List.length_cons,
        bytesToWordsBE_length rest]
      omega

theorem bytesToWordsBE_getD :
    ∀ (l : List ℕ) (k : ℕ), 2 * k + 1 < l.length →
      (bytesToWordsBE l).getD k 0
        = 256 * l.getD (2 * k) 0 + l.getD (2 * k + 1) 0
  | [], _, h => by simp at h
  | [_], _, h => by simp at h
  | _ :: _ :: _, 0, _ => rfl
  | b1 :: b2 :: rest, k + 1, h => by
      have ih := bytesToWordsBE_getD rest k
        (by simp only [List.length_cons] at h; omega)
      show (bytesToWordsBE rest).getD k 0 = _
      rw [show 2 * (k + 1) = 2 * k + 1 + 1 from by omega]
      simp only [List.getD_cons_succ]
      exact ih

theorem memGet_append_left (l1 l2 : List ℕ) (a : ℕ) (h : a < l1.length) :
    memGet (l1 ++ l2) a = memGet l1 a := by
  unfold memGet
  rw [List.getD_eq_getElem?_getD, List.getElem?_append_left h,
    ← List.getD_eq_getElem?_getD]

theorem memGet_append_right (l1 l2 : List ℕ) (a : ℕ) (h : l1.length ≤ a) :
    memGet (l1 ++ l2) a = memGet l2 (a - l1.length) := by
  unfold memGet
  rw [List.getD_eq_getElem?_getD, List.getElem?_append_right h,
    ← List.getD_eq_getElem?_getD]

theorem memGet_replicate (n a : ℕ) :
    memGet (List.replicate n 0) a = 0 := by
  unfold memGet
  rw [List.getD_eq_getElem?_getD, List.getElem?_replicate]
  split <;> rfl

/-- The upper bound on the origin for genuine byte streams. -/
theorem imageOrigin_lt (bytes : List ℕ) (hbytes : ∀ b ∈ bytes, b < 256) :
    imageOrigin bytes < 65536 := by
  unfold imageOrigin fromBytesBE
  rcases bytes with _ | ⟨b1, _ | ⟨b2, rest⟩⟩
  · decide
  · have h1 := hbytes b1 (by simp)
    simpa using by omega
  · have h1 := hbytes b1 (by simp)
    have h2 := hbytes b2 (by simp)
    simp only [List.take, List.foldl]
    omega

theorem loadedCells_length (bytes : List ℕ)
    (hbytes : ∀ b ∈ bytes, b < 256) :
    (loadedCells bytes).length ≤ 65536 := by
  have horigin := imageOrigin_lt bytes hbytes
  have hdata : (imageData bytes).length ≤ 65536 - imageOrigin bytes := by
    unfold imageData
    simp [List.length_take]
  unfold loadedCells
  simp only [List.length_append, List.length_replicate,
    bytesToWordsBE_length]
  omega

/-- C7 counterexample: the claim says a stream truncated mid-word is
tolerated by stopping early; on the stream `[0x30, 0x00, 0x41]`
(origin `0x3000` and a single dangling payload byte) the code's
`frombytes` call raises `ValueError` (modelled as `none`) instead. -/
theorem c7_read_image_file_counterexample :
    read_image_file [0x30, 0x00, 0x41] = none := by
  rfl

/-- C7 amended: the loader takes the first 2 bytes big-endian as the
origin, reads at most `65536 - origin` payload bytes (bytes beyond
that, or beyond the payload, are never read), places them as
big-endian 16-bit words starting at the origin, and leaves every
other cell of the 65536-cell memory zero; however, a stream whose
consumed payload has an odd byte count (truncated mid-word) makes
the load fail (`ValueError`, modelled as `none`) rather than being
tolerated by stopping early. -/
theorem c7_read_image_file_amended :
    (∀ (bytes m : List ℕ), (∀ b ∈ bytes, b < 256) →
      read_image_file bytes = some m →
        m.length = 65536
        ∧ (∀ a, a < imageOrigin bytes → memGet m a = 0)
        ∧ (∀ k, k < (imageData bytes).length / 2 →
            memGet m (imageOrigin bytes + k)
              = 256 * (imageData bytes).getD (2 * k) 0
                + (imageData bytes).getD (2 * k + 1) 0)
        ∧ (∀ a, imageOrigin bytes + (imageData bytes).length / 2 ≤ a →
            memGet m a = 0))
    ∧ (∀ bytes : List ℕ, (imageData bytes).length % 2 = 1 →
        read_image_file bytes = none)
    ∧ (∀ bytes junk : List ℕ, 2 ≤ bytes.length →
        65536 - imageOrigin bytes ≤ bytes.length - 2 →
        read_image_file (bytes ++ junk) = read_image_file bytes) := by
  refine ⟨?_, ?_, ?_⟩
  · intro bytes m hbytes hsome
    have hplen : (loadedCells bytes).length ≤ 65536 :=
      loadedCells_length bytes hbytes
    have hpeq : (loadedCells bytes).length
        = imageOrigin bytes + (imageData bytes).length / 2 := by
      unfold loadedCells
      simp [bytesToWordsBE_length]
    unfold read_image_file at hsome
    by_cases heven : (imageData bytes).length % 2 = 0
    · rw [if_pos heven] at hsome
      injection hsome with hm
      subst hm
      refine ⟨?_, ?_, ?_, ?_⟩
      · simp only [List.length_append, List.length_replicate]
        omega
      · intro a ha
        rw [memGet_append_left _ _ _ (by omega)]
        unfold loadedCells
        rw [memGet_append_left _ _ _ (by simp; omega)]
        exact memGet_replicate _ _
      · intro k hk
        rw [memGet_append_left _ _ _ (by omega)]
        unfold loadedCells
        rw [memGet_append_right _ _ _ (by simp)]
        simp only [List.length_replicate, Nat.add_sub_cancel_left]
        exact bytesToWordsBE_getD _ k (by omega)
      · intro a ha
        by_cases hlt : a < (loadedCells bytes).length
        · omega
        · rw [memGet_append_right _ _ _ (by omega)]
          exact memGet_replicate _ _
    · rw [if_neg heven] at hsome
      exact absurd hsome (by simp)
  · intro bytes hodd
    unfold read_image_file
    rw [if_neg (by omega)]
  · intro bytes junk h2 hcap
    have htake : (bytes ++ junk).take 2 = bytes.take 2 :=
      List.take_append_of_le_length h2
    have horigin : imageOrigin (bytes ++ junk) = imageOrigin bytes := by
      unfold imageOrigin
      rw [htake]
    have hdata : imageData (bytes ++ junk) = imageData bytes := by
      unfold imageData
      rw [List.drop_append_of_le_length h2, horigin,
        List.take_append_of_le_length (by simp; omega)]
    unfold read_image_file loadedCells
    rw [hdata, horigin]

/-- C7 witness: the stream `[0, 0, 18, 52]` loads origin 0 and the
single word `0x1234 = 4660` at address 0, the memory has 65536 cells,
and every cell from address 1 on is zero. -/
theorem c7_read_image_file_witness :
    (loadedCells [0, 0, 18, 52]
      ++ List.replicate (65536 - (loadedCells [0, 0, 18, 52]).length) 0).length
      = 65536
    ∧ memGet (loadedCells [0, 0, 18, 52]
        ++ List.replicate (65536 - (loadedCells [0, 0, 18, 52]).length) 0)
        (imageOrigin [0, 0, 18, 52] + 0)
      = 256 * (imageData [0, 0, 18, 52]).getD (2 * 0) 0
        + (imageData [0, 0, 18, 52]).getD (2 * 0 + 1) 0
    ∧ memGet (loadedCells [0, 0, 18, 52]
        ++ List.replicate (65536 - (loadedCells [0, 0, 18, 52]).length) 0)
        1 = 0 := by
  have hsome : read_image_file [0, 0, 18, 52]
      = some (loadedCells [0, 0, 18, 52]
          ++ List.replicate (65536 - (loadedCells [0, 0, 18, 52]).length) 0) := by
    unfold read_image_file
    rw [if_pos (by decide)]
  have h := c7_read_image_file_amended.1 [0, 0, 18, 52] _
    (by decide) hsome
  exact ⟨h.1, h.2.2.1 0 (by decide), h.2.2.2 1 (by decide)⟩

/-- C10: `trap_puts` always terminates and writes exactly the cells
from address `R0` up to (excluding) the first zero cell; when no zero
cell exists at or above `R0` it writes every cell up to the last
memory address (`65535` for the VM's 65536-cell memory) and stops
without wrapping around. -/
theorem c10_trap_puts_correct (mem : List ℕ) (r0 : ℕ) :
    trap_puts_loop mem r0
      = ((List.range' r0 (mem.length - r0)).map (fun i => memGet mem i)).takeWhile
          (fun c => c != 0)
    ∧ (trap_puts_loop mem r0).length ≤ mem.length - r0
    ∧ ((∀ i, r0 ≤ i → i < mem.length → memGet mem i ≠ 0) →
        trap_puts_loop mem r0
          = (List.range' r0 (mem.length - r0)).map (fun i => memGet mem i)) := by
  have main : ∀ (n : ℕ) (j : ℕ), mem.length - j = n →
      trap_puts_loop mem j
        = ((List.range' j (mem.length - j)).map (fun i => memGet mem i)).takeWhile
            (fun c => c != 0) := by
    intro n
    induction n with
    | zero =>
      intro j hj
      rw [trap_puts_loop, dif_neg (by omega), hj]
      simp
    | succ k ih =>
      intro j hj
      rw [trap_puts_loop, dif_pos (by omega), hj, List.range'_succ,
        List.map_cons, List.takeWhile_cons]
      by_cases hz : memGet mem j = 0
      · rw [if_pos hz, hz]
        simp
      · rw [if_neg hz, ih (j + 1) (by omega),
          show mem.length - (j + 1) = k from by omega]
        simp [hz]
  have heq := main (mem.length - r0) r0 rfl
  refine ⟨heq, ?_, ?_⟩
  · rw [heq]
    calc (((List.range' r0 (mem.length - r0)).map
          (fun i => memGet mem i)).takeWhile (fun c => c != 0)).length
        ≤ ((List.range' r0 (mem.length - r0)).map
            (fun i => memGet mem i)).length :=
          (List.takeWhile_sublist _).length_le
    _ = mem.length - r0 := by simp
  · intro hnz
    rw [heq]
    rw [List.takeWhile_eq_self_iff.mpr]
    intro x hx
    rw [List.mem_map] at hx
    obtain ⟨i, hi, hxi⟩ := hx
    rw [List.mem_range'] at hi
    obtain ⟨d, hd, hid⟩ := hi
    have : memGet mem i ≠ 0 := hnz i (by omega) (by omega)
    subst hxi
    simpa using this

/-- C10 witness: a two-cell memory `[72, 73]` with no zero cell: PUTS
starting at 0 writes both cells and stops at the end of memory. -/
theorem c10_trap_puts_witness :
    trap_puts_loop [72, 73] 0
      = (List.range' 0 ([72, 73].length - 0)).map
          (fun i => memGet [72, 73] i) :=
  (c10_trap_puts_correct [72, 73] 0).2.2 (by
    intro i h1 h2
    simp only [List.length_cons, List.length_nil] at h2
    interval_cases i <;> decide)

/-! ## Faults (C6, C8) -/

/-- Dispatch on an opcode without a registered handler (13 or 8), or a
TRAP with a vector outside `0x20..0x25`, raises. -/
theorem execInstr_none_of_bad (i : ℕ) (s : VMState)
    (h : i >>> 12 = 13 ∨ i >>> 12 = 8 ∨
      (i >>> 12 = 15 ∧ ¬ (0x20 ≤ i &&& 0xFF ∧ i &&& 0xFF ≤ 0x25))) :
    execInstr i s = none := by
  unfold execInstr
  rcases h with h | h | ⟨h, hv⟩
  · rw [h]
    norm_num
  · rw [h]
    norm_num
  · rw [h]
    norm_num
    unfold trap
    generalize hvec : i &&& 0xFF = v at hv ⊢
    rw [if_neg (by omega), if_neg (by omega), if_neg (by omega),
      if_neg (by omega), if_neg (by omega), if_neg (by omega)]

/-- C8 (code bug): the IN trap (`vector 0x23`) never reads a character
and never stores one in `R0`: `vsys.stdout.read(1)` reads the
write-only console output stream and returns no value, so `trap_in`
raises before the `R0` assignment, and executing `TRAP 0x23` kills the
run instead of prompting, blocking for one input character, echoing
it, and storing its code in `R0`. -/
theorem c8_trap_in_never_stores (s : VMState) :
    trap_in s = none ∧ execInstr 0xF023 s = none :=
  ⟨rfl, rfl⟩

/-- C6: from a running engine, dispatch of an instruction whose opcode
is 13 or 8 (no registered handler), or a TRAP instruction whose 8-bit
vector lies outside `0x20..0x25`, transitions the engine to `Faulted`
at that instruction with no step event; a faulted engine performs no
further steps and produces no further events. -/
theorem c6_fault_correct :
    (∀ e : Engine, e.status = .running →
      ((mem_read (e.st.regs R_PC) e.st.input e.st.mem).1 >>> 12 = 13
        ∨ (mem_read (e.st.regs R_PC) e.st.input e.st.mem).1 >>> 12 = 8
        ∨ ((mem_read (e.st.regs R_PC) e.st.input e.st.mem).1 >>> 12 = 15
            ∧ ¬ (0x20 ≤ (mem_read (e.st.regs R_PC) e.st.input e.st.mem).1 &&& 0xFF
                ∧ (mem_read (e.st.regs R_PC) e.st.input e.st.mem).1 &&& 0xFF ≤ 0x25))) →
      (engineStep e).1.status = .faulted ∧ (engineStep e).2 = none)
    ∧ (∀ e : Engine, e.status = .faulted →
        engineStep e = (e, none) ∧ ∀ fuel, runLoop fuel e = []) := by
  constructor
  · intro e he hbad
    rcases hmr : mem_read (e.st.regs R_PC) e.st.input e.st.mem
      with ⟨instr, m1, in1⟩
    rw [hmr] at hbad
    have hexec : execInstr instr
        (wrReg {e.st with mem := m1, input := in1} R_PC
          ((e.st.regs R_PC : ℤ) + 1)) = none :=
      execInstr_none_of_bad _ _ hbad
    constructor
    · simp only [engineStep, he, hmr, hexec]
    · simp only [engineStep, he, hmr, hexec]
  · intro e hf
    have hstep : engineStep e = (e, none) := by
      simp only [engineStep, hf]
    refine ⟨hstep, ?_⟩
    intro fuel
    cases fuel with
    | zero => rfl
    | succ k => simp only [runLoop, hstep]

/-- C6 witness: a running engine whose next instruction word is
`0xD000` (opcode 13) faults with no event, and a faulted engine steps
to itself producing nothing. -/
theorem c6_fault_witness :
    (engineStep ⟨{regs := fun _ => 0, mem := [0xD000], input := [], outBuf := [], cmdBuf := "", running := true}, .running⟩).1.status = .faulted
    ∧ (engineStep ⟨{regs := fun _ => 0, mem := [0xD000], input := [], outBuf := [], cmdBuf := "", running := true}, .running⟩).2 = none
    ∧ runLoop 5 ⟨{regs := fun _ => 0, mem := [0xD000], input := [], outBuf := [], cmdBuf := "", running := true}, .faulted⟩ = [] := by
  refine ⟨?_, ?_, ?_⟩
  · exact (c6_fault_correct.1 _ rfl (Or.inl (by decide))).1
  · exact (c6_fault_correct.1 _ rfl (Or.inl (by decide))).2
  · exact (c6_fault_correct.2 _ rfl).2 5

theorem update_flags_lt (reg : ℕ → ℕ) (r : ℕ)
    (h : ∀ i, reg i < 65536) : ∀ i, update_flags reg r i < 65536 := by
  unfold update_flags
  split_ifs <;> exact regSet_lt _ _ _ h

theorem op_add_inv (s : VMState) (i : ℕ) (h : RegInv s.regs) :
    RegInv (op_add s i).regs := by
  unfold op_add
  split_ifs <;> exact update_flags_lt _ _ (regSet_lt _ _ _ h)

theorem op_and_inv (s : VMState) (i : ℕ) (h : RegInv s.regs) :
    RegInv (op_and_ s i).regs := by
  unfold op_and_
  split_ifs <;> exact update_flags_lt _ _ (regSet_lt _ _ _ h)

theorem op_not_inv (s : VMState) (i : ℕ) (h : RegInv s.regs) :
    RegInv (op_not_ s i).regs :=
  update_flags_lt _ _ (regSet_lt _ _ _ h)

theorem op_br_inv (s : VMState) (i : ℕ) (h : RegInv s.regs) :
    RegInv (op_br s i).regs := by
  unfold op_br
  split_ifs
  · exact regSet_lt _ _ _ h
  · exact h

theorem op_jmp_inv (s : VMState) (i : ℕ) (h : RegInv s.regs) :
    RegInv (op_jmp s i).regs :=
  regSet_lt _ _ _ h

theorem op_jsr_inv (s : VMState) (i : ℕ) (h : RegInv s.regs) :
    RegInv (op_jsr s i).regs := by
  unfold op_jsr
  split_ifs <;> exact regSet_lt _ _ _ (regSet_lt _ _ _ h)

theorem op_ld_inv (s : VMState) (i : ℕ) (h : RegInv s.regs) :
    RegInv (op_ld s i).regs := by
  unfold op_ld
  rcases hmr : mem_read (s.regs R_PC + sign_extend (i &&& 0x1ff) 9)
    s.input s.mem with ⟨v, m1, in1⟩
  exact update_flags_lt _ _ (regSet_lt _ _ _ h)

theorem op_ldi_inv (s : VMState) (i : ℕ) (h : RegInv s.regs) :
    RegInv (op_ldi s i).regs := by
  unfold op_ldi
  rcases hmr : mem_read (s.regs R_PC + sign_extend (i &&& 0x1ff) 9)
    s.input s.mem with ⟨v1, m1, in1⟩
  rcases hmr2 : mem_read v1 in1 m1 with ⟨v2, m2, in2⟩
  exact update_flags_lt _ _ (regSet_lt _ _ _ h)

theorem op_ldr_inv (s : VMState) (i : ℕ) (h : RegInv s.regs) :
    RegInv (op_ldr s i).regs := by
  unfold op_ldr
  rcases hmr : mem_read (s.regs ((i >>> 6) &&& 0x7) + sign_extend (i &&& 0x3F) 6)
    s.input s.mem with ⟨v, m1, in1⟩
  exact update_flags_lt _ _ (regSet_lt _ _ _ h)

theorem op_lea_inv (s : VMState) (i : ℕ) (h : RegInv s.regs) :
    RegInv (op_lea s i).regs :=
  update_flags_lt _ _ (regSet_lt _ _ _ h)

theorem op_st_inv (s : VMState) (i : ℕ) (s' : VMState)
    (hsome : op_st s i = some s') (h : RegInv s.regs) : RegInv s'.regs := by
  unfold op_st at hsome
  split at hsome
  · injection hsome with h'
    subst h'
    exact h
  · exact absurd hsome (by simp)

theorem op_sti_inv (s : VMState) (i : ℕ) (s' : VMState)
    (hsome : op_sti s i = some s') (h : RegInv s.regs) : RegInv s'.regs := by
  unfold op_sti at hsome
  split at hsome
  split at hsome
  · injection hsome with h'
    subst h'
    exact h
  · exact absurd hsome (by simp)

theorem op_str_inv (s : VMState) (i : ℕ) (s' : VMState)
    (hsome : op_str_ s i = some s') (h : RegInv s.regs) : RegInv s'.regs := by
  unfold op_str_ at hsome
  split at hsome
  · injection hsome with h'
    subst h'
    exact h
  · exact absurd hsome (by simp)

theorem trap_inv (s : VMState) (i : ℕ) (s' : VMState)
    (hsome : trap s i = some s') (h : RegInv s.regs) : RegInv s'.regs := by
  unfold trap at hsome
  split_ifs at hsome
  · -- GETC
    unfold trap_getc at hsome
    split at hsome
    · injection hsome with h'
      subst h'
      exact regSet_lt _ _ _ h
    · exact absurd hsome (by simp)
  · -- OUT
    injection hsome with h'
    subst h'
    exact h
  · -- PUTS
    injection hsome with h'
    subst h'
    exact h
  · -- IN: always raises
    exact absurd hsome (by simp [trap_in, vsys_stdout_read])
  · -- PUTSP
    injection hsome with h'
    subst h'
    exact h
  · -- HALT
    injection hsome with h'
    subst h'
    exact h

theorem execInstr_inv (i : ℕ) (s s' : VMState)
    (hsome : execInstr i s = some s') (h : RegInv s.regs) :
    RegInv s'.regs := by
  unfold execInstr at hsome
  by_cases h0 : i >>> 12 = 0
  · rw [if_pos h0] at hsome
    injection hsome with h'
    subst h'
    exact op_br_inv s i h
  rw [if_neg h0] at hsome
  by_cases h1 : i >>> 12 = 1
  · rw [if_pos h1] at hsome
    injection hsome with h'
    subst h'
    exact op_add_inv s i h
  rw [if_neg h1] at hsome
  by_cases h2 : i >>> 12 = 2
  · rw [if_pos h2] at hsome
    injection hsome with h'
    subst h'
    exact op_ld_inv s i h
  rw [if_neg h2] at hsome
  by_cases h3 : i >>> 12 = 3
  · rw [if_pos h3] at hsome
    exact op_st_inv s i s' hsome h
  rw [if_neg h3] at hsome
  by_cases h4 : i >>> 12 = 4
  · rw [if_pos h4] at hsome
    injection hsome with h'
    subst h'
    exact op_jsr_inv s i h
  rw [if_neg h4] at hsome
  by_cases h5 : i >>> 12 = 5
  · rw [if_pos h5] at hsome
    injection hsome with h'
    subst h'
    exact op_and_inv s i h
  rw [if_neg h5] at hsome
  by_cases h6 : i >>> 12 = 6
  · rw [if_pos h6] at hsome
    injection hsome with h'
    subst h'
    exact op_ldr_inv s i h
  rw [if_neg h6] at hsome
  by_cases h7 : i >>> 12 = 7
  · rw [if_pos h7] at hsome
    exact op_str_inv s i s' hsome h
  rw [if_neg h7] at hsome
  by_cases h9 : i >>> 12 = 9
  · rw [if_pos h9] at hsome
    injection hsome with h'
    subst h'
    exact op_not_inv s i h
  rw [if_neg h9] at hsome
  by_cases h10 : i >>> 12 = 10
  · rw [if_pos h10] at hsome
    injection hsome with h'
    subst h'
    exact op_ldi_inv s i h
  rw [if_neg h10] at hsome
  by_cases h11 : i >>> 12 = 11
  · rw [if_pos h11] at hsome
    exact op_sti_inv s i s' hsome h
  rw [if_neg h11] at hsome
  by_cases h12 : i >>> 12 = 12
  · rw [if_pos h12] at hsome
    injection hsome with h'
    subst h'
    exact op_jmp_inv s i h
  rw [if_neg h12] at hsome
  by_cases h14 : i >>> 12 = 14
  · rw [if_pos h14] at hsome
    injection hsome with h'
    subst h'
    exact op_lea_inv s i h
  rw [if_neg h14] at hsome
  by_cases h15 : i >>> 12 = 15
  · rw [if_pos h15] at hsome
    exact trap_inv s i s' hsome h
  rw [if_neg h15] at hsome
  exact absurd hsome (by simp)

/-- C1: register writes through `register_dict` store the value
reduced modulo `2^16`: the stored value equals `v mod 65536` and lies
in `[0, 65535]` (so `65536 + k` stores `k` and `-1` stores `65535`);
registers start zeroed and every engine step — any sequence of
operations — preserves the invariant that all registers hold values
below `2^16`. -/
theorem c1_register_width_invariant :
    (∀ (reg : ℕ → ℕ) (r : ℕ) (v : ℤ),
      ((regSet reg r v) r : ℤ) = v % 65536 ∧ (regSet reg r v) r < 65536)
    ∧ (∀ (reg : ℕ → ℕ) (r : ℕ) (k : ℤ), 0 ≤ k → k < 65536 →
        ((regSet reg r (65536 + k)) r : ℤ) = k)
    ∧ (∀ (reg : ℕ → ℕ) (r : ℕ), (regSet reg r (-1)) r = 65535)
    ∧ RegInv regInit
    ∧ (∀ e : Engine, RegInv e.st.regs → RegInv (engineStep e).1.st.regs) := by
  have hval : ∀ (reg : ℕ → ℕ) (r : ℕ) (v : ℤ),
      ((regSet reg r v) r : ℤ) = v % 65536 := by
    intro reg r v
    unfold regSet
    rw [if_pos rfl]
    exact Int.toNat_of_nonneg (Int.emod_nonneg v (by norm_num))
  refine ⟨?_, ?_, ?_, ?_, ?_⟩
  · intro reg r v
    refine ⟨hval reg r v, ?_⟩
    unfold regSet
    rw [if_pos rfl]
    exact emod65536_toNat_lt v
  · intro reg r k h0 h1
    rw [hval reg r (65536 + k)]
    omega
  · intro reg r
    have := hval reg r (-1)
    omega
  · intro i
    unfold regInit
    omega
  · intro e h
    rcases e with ⟨st, status⟩
    cases status with
    | running =>
        rcases hmr : mem_read (st.regs R_PC) st.input st.mem
          with ⟨instr, m1, in1⟩
        cases hex : execInstr instr
            (wrReg {st with mem := m1, input := in1} R_PC
              ((st.regs R_PC : ℤ) + 1)) with
        | none =>
            have hstep : engineStep ⟨st, .running⟩
                = (⟨wrReg {st with mem := m1, input := in1} R_PC
                    ((st.regs R_PC : ℤ) + 1), .faulted⟩, none) := by
              simp only [engineStep, hmr, hex]
            rw [hstep]
            exact regSet_lt _ _ _ h
        | some s2 =>
            have hstep : engineStep ⟨st, .running⟩
                = (⟨{s2 with outBuf := [], cmdBuf := ""},
                    if s2.running then .running else .halted⟩,
                  some ⟨s2.regs R_PC, s2.cmdBuf, dispatchName (instr >>> 12), some (instr >>> 12), some s2.outBuf, s2.mem⟩) := by
              simp only [engineStep, hmr, hex]
            rw [hstep]
            exact execInstr_inv instr _ s2 hex (regSet_lt _ _ _ h)
    | halted => exact h
    | faulted => exact h

/-- C1 witness: writing `65536 + 7` to `R3` stores 7; writing `-1`
stores 65535; an engine step from the reset register file keeps `COND`
(register 9) below `2^16`. -/
theorem c1_register_width_witness :
    ((regSet regInit 3 (65536 + 7)) 3 : ℤ) = 7
    ∧ (regSet regInit 3 (-1)) 3 = 65535
    ∧ (engineStep ⟨{regs := regInit, mem := [0x103F], input := [], outBuf := [], cmdBuf := "", running := true}, .running⟩).1.st.regs 9 < 65536 :=
  ⟨c1_register_width_invariant.2.1 regInit 3 7 (by decide) (by decide),
   c1_register_width_invariant.2.2.1 regInit 3,
   c1_register_width_invariant.2.2.2.2
     ⟨{regs := regInit, mem := [0x103F], input := [], outBuf := [], cmdBuf := "", running := true}, .running⟩
     c1_register_width_invariant.2.2.2.1 9⟩

theorem runLoop_succ (fuel : ℕ) (e : Engine) :
    runLoop (fuel + 1) e = (match engineStep e with
      | (_, none) => []
      | (e', some ev) => ev :: runLoop fuel e') := rfl

/-- The equational form of a successful engine step: fetch result and
dispatch result determine the successor engine and the emitted
event. -/
theorem engineStep_run_eq (e : Engine) (he : e.status = .running)
    (instr : ℕ) (m1 in1 : List ℕ)
    (hmr : mem_read (e.st.regs R_PC) e.st.input e.st.mem = (instr, m1, in1))
    (s2 : VMState)
    (hex : execInstr instr (wrReg {e.st with mem := m1, input := in1} R_PC
        ((e.st.regs R_PC : ℤ) + 1)) = some s2) :
    engineStep e = (⟨{s2 with outBuf := [], cmdBuf := ""},
        if s2.running then .running else .halted⟩,
      some ⟨s2.regs R_PC, s2.cmdBuf, dispatchName (instr >>> 12),
        some (instr >>> 12), some s2.outBuf, s2.mem⟩) := by
  rcases e with ⟨st, status⟩
  simp only at he hmr hex
  subst he
  simp only [engineStep, hmr, hex]

theorem demoCells_eq : loadedCells demoImage
    = List.replicate 12288 0 ++ [61473, 61477] := by
  unfold loadedCells
  rw [show imageData demoImage = [240, 33, 240, 37] from by decide,
    show imageOrigin demoImage = 12288 from by decide,
    show bytesToWordsBE [240, 33, 240, 37] = [61473, 61477] from by decide]

theorem demoCells_length : (loadedCells demoImage).length = 12290 := by
  rw [demoCells_eq, List.length_append, List.length_replicate]
  decide

theorem demoMemory_load : read_image_file demoImage = some demoMemory := by
  unfold read_image_file demoMemory
  rw [if_pos (by
    rw [show imageData demoImage = [240, 33, 240, 37] from by decide]
    decide)]

theorem demoMemory_fetch1 : memGet demoMemory 12288 = 61473 := by
  unfold demoMemory
  rw [memGet_append_left _ _ _ (by rw [demoCells_length]; norm_num),
    demoCells_eq,
    memGet_append_right _ _ _
      (by rw [List.length_replicate] : (List.replicate 12288 (0:ℕ)).length ≤ 12288),
    List.length_replicate]
  decide

/-- The first executed instruction of a `demoImage` run is `TRAP OUT`
on the current `R0`: the second event's output is `[regs0 0]`,
whatever register file `regs0` the module-level `reg` carried into
`main_generator`. -/
theorem demo_run_second_output (regs0 : ℕ → ℕ) :
    secondOutput (main_generator_run regs0 "" [] demoImage [] 5)
      = some (some [regs0 0]) := by
  have hpc : regSet regs0 R_PC (PC_START : ℤ) R_PC = 12288 := by
    unfold regSet
    rw [if_pos rfl]
    decide
  have hexec1 : ∀ s : VMState, execInstr 61473 s = some (trap_out s) :=
    fun _ => rfl
  simp only [main_generator_run, demoMemory_load, secondOutput,
    Option.map_some']
  rw [show (1 : ℕ) = 0 + 1 from rfl, List.getD_cons_succ]
  rw [show (5 : ℕ) = 4 + 1 from rfl, runLoop_succ]
  generalize hMM : demoMemory = MM
  have hfetch : memGet MM 12288 = 61473 := by
    rw [← hMM]
    exact demoMemory_fetch1
  have hmr1 : mem_read 12288 [] MM = (61473, MM, []) := by
    unfold mem_read
    rw [if_neg (by decide),
      show (12288 : ℕ) % 65536 = 12288 from by norm_num, hfetch]
  rw [engineStep_run_eq _ rfl 61473 MM []
    (by
      show mem_read (regSet regs0 R_PC (PC_START : ℤ) R_PC) [] MM
        = (61473, MM, [])
      rw [hpc]
      exact hmr1)
    _ (hexec1 _)]
  simp only [trap_out, wrReg, regSet, R_R0, R_PC, List.getD_cons_zero,
    List.nil_append]
  norm_num

/-- C9 counterexample: two runs of the identical image (`demoImage`)
with the identical (empty) scripted input stream produce different
event sequences, because `main_generator` does not reset `R0`–`R7`
or `COND`: a run whose module-level register file carries `R0 = 66`
from earlier activity makes `TRAP OUT` emit character 66, while the
pristine register file emits character 0. -/
theorem c9_determinism_counterexample :
    main_generator_run (fun i => if i = 0 then 66 else 0) "" [] demoImage [] 5
      ≠ main_generator_run regInit "" [] demoImage [] 5 := by
  intro hcontra
  have h1 := demo_run_second_output (fun i => if i = 0 then 66 else 0)
  have h2 := demo_run_second_output regInit
  rw [hcontra, h2] at h1
  simp [regInit] at h1

/-- C9 amended: `main_generator` rebuilds `memory` from the image
alone and resets `PC` and the running flag, but leaves `R0`–`R7` and
`COND` as they were; consequently two runs of the identical image with
the identical scripted input stream produce identical sequences of
step events whenever they start from register files that agree on
everything except `PC` (and from the same buffer contents) — and can
differ otherwise, as the counterexample shows. -/
theorem c9_determinism_amended (regs regs' : ℕ → ℕ) (cmd : String)
    (out : List ℕ) (image input : List ℕ) (fuel : ℕ)
    (h : ∀ i, i ≠ R_PC → regs i = regs' i) :
    main_generator_run regs cmd out image input fuel
      = main_generator_run regs' cmd out image input fuel := by
  have hreg : regSet regs R_PC (PC_START : ℤ)
      = regSet regs' R_PC (PC_START : ℤ) := by
    funext i
    unfold regSet
    by_cases hik : i = R_PC
    · rw [if_pos hik, if_pos hik]
    · rw [if_neg hik, if_neg hik]
      exact h i hik
  unfold main_generator_run
  rw [hreg]

/-- C9 amended witness: a leftover `PC` value is irrelevant — runs
from register files differing only in `PC` coincide. -/
theorem c9_determinism_witness :
    main_generator_run (fun i => if i = R_PC then 99 else 0) "" []
      demoImage [] 5
      = main_generator_run (fun _ => 0) "" [] demoImage [] 5 :=
  c9_determinism_amended _ _ "" [] demoImage [] 5 (by
    intro i hi
    simp [hi])

end LC3

